import Mathlib

/-!
Verification development for the baml_elixir native bridge
(src/native/baml_elixir/src/lib.rs and src/native/baml_elixir/src/type_builder.rs).

The development shallowly embeds the two source files:
* the value codec between Elixir terms and BAML runtime values
  (term_to_baml_value, baml_value_to_term, term_to_string in lib.rs), and
* the TypeBuilder declaration parser
  (parse_type_builder_spec and its helpers in type_builder.rs).

Elixir terms are modelled by the inductive type ETerm below.  Notes on the
modelling of the host (BEAM / rustler) behaviour that the Rust code calls into:
* Erlang booleans are the atoms true and false; there is no separate boolean
  term shape, so ETerm has no bool constructor.
* decode to i64 succeeds exactly on integer terms in the signed 64-bit range;
  decode to f64 succeeds on float terms (float payloads are kept opaque as a
  bit pattern, since no claim inspects float arithmetic); decode to String
  succeeds exactly on binaries; decode to a term vector succeeds exactly on
  lists; atom_to_string yields the atom text.
* Erlang map iteration is modelled by an association list; map_put replaces
  the value of a structurally equal key and otherwise appends.
* BamlMap is an insertion-ordered map (IndexMap); insert of an existing key
  replaces the value in place, insert of a new key appends.

The mutable TypeBuilder registry lives in the external baml_runtime crate and
is not part of the repository source; its operations are modelled from the
specification (each such definition is marked "Modelled from the spec:").
-/

/-- An Elixir/Erlang term as observed by the rustler bridge: integers
(arbitrary precision), floats (payload kept opaque as a bit pattern), atoms,
binaries (UTF-8 strings), proper lists, and maps (association list of
key-value pairs). -/
inductive ETerm where
  | int (i : Int)
  | float (bits : Nat)
  | atom (s : String)
  | binary (s : String)
  | list (xs : List ETerm)
  | map (kvs : List (ETerm × ETerm))

mutual
/-- Structural equality of Erlang terms (used by map_put key comparison). -/
def ETerm.beq : ETerm → ETerm → Bool
  | .int a, .int b => a == b
  | .float a, .float b => a == b
  | .atom a, .atom b => a == b
  | .binary a, .binary b => a == b
  | .list a, .list b => ETerm.beqList a b
  | .map a, .map b => ETerm.beqKVs a b
  | _, _ => false

def ETerm.beqList : List ETerm → List ETerm → Bool
  | [], [] => true
  | a :: as', b :: bs' => ETerm.beq a b && ETerm.beqList as' bs'
  | _, _ => false

def ETerm.beqKVs : List (ETerm × ETerm) → List (ETerm × ETerm) → Bool
  | [], [] => true
  | (k, v) :: as', (k', v') :: bs' => ETerm.beq k k' && ETerm.beq v v' && ETerm.beqKVs as' bs'
  | _, _ => false
end

/-- BamlValue from the baml_types crate, as used by lib.rs: the variants
matched by baml_value_to_term.  The Int variant carries i64 in Rust; the
embedding carries Int and tracks the range where it matters.  Media payloads
are irrelevant (both codec directions reject Media), so Media carries no
data here. -/
inductive BamlValue where
  | string (s : String)
  | int (i : Int)
  | float (bits : Nat)
  | bool (b : Bool)
  | null
  | list (items : List BamlValue)
  | map (entries : List (String × BamlValue))
  | cls (name : String) (fields : List (String × BamlValue))
  | enum (enumType : String) (variant : String)
  | media

/-- Signed 64-bit range test: the condition under which a rustler decode of an
integer term to i64 succeeds. -/
def fitsI64 (i : Int) : Prop := -(2 ^ 63) ≤ i ∧ i < 2 ^ 63

instance (i : Int) : Decidable (fitsI64 i) := by unfold fitsI64; infer_instance

/-- term_to_string from lib.rs (lines 28-34): an atom decodes to its text,
otherwise the term must decode as a String (i.e. be a binary). -/
def term_to_string (t : ETerm) : Except String String :=
  match t with
  | .atom s => .ok s
  | .binary s => .ok s
  | _ => .error "string decode failed"

/-- Insert into a BamlMap (IndexMap): replace the value in place if the key
is present, append otherwise. -/
def bamlMapInsert (m : List (String × BamlValue)) (k : String) (v : BamlValue) :
    List (String × BamlValue) :=
  match m with
  | [] => [(k, v)]
  | (k', v') :: rest =>
    if k' = k then (k', v) :: rest else (k', v') :: bamlMapInsert rest k v

mutual

/-- term_to_baml_value from lib.rs (lines 36-78).  Branch order follows the
source: number (i64 first, then f64), String, list, map, the nil atom, and a
rejecting default.  An integer term outside the i64 range falls through every
branch (the f64 decode of an integer is modelled as failing) and is rejected;
no claim depends on that corner. -/
def term_to_baml_value (t : ETerm) : Except String BamlValue :=
  match t with
  | .int i =>
    if fitsI64 i then .ok (.int i) else .error "Unsupported type"
  | .float bits => .ok (.float bits)
  | .binary s => .ok (.string s)
  | .list xs =>
    match decodeListElems xs with
    | .ok vs => .ok (.list vs)
    | .error e => .error e
  | .map kvs =>
    match decodeMapEntries kvs [] with
    | .ok m => .ok (.map m)
    | .error e => .error e
  | .atom s => if s = "nil" then .ok .null else .error "Unsupported type"

/-- The element loop of the list branch of term_to_baml_value (lines 50-56):
decode each element in order, propagating the first failure. -/
def decodeListElems (xs : List ETerm) : Except String (List BamlValue) :=
  match xs with
  | [] => .ok []
  | x :: rest =>
    match term_to_baml_value x with
    | .error e => .error e
    | .ok v =>
      match decodeListElems rest with
      | .error e => .error e
      | .ok vs => .ok (v :: vs)

/-- The entry loop of the map branch of term_to_baml_value (lines 58-68):
for each entry, coerce the key to a string via term_to_string, decode the
value recursively, and insert into the accumulating BamlMap. -/
def decodeMapEntries (kvs : List (ETerm × ETerm)) (acc : List (String × BamlValue)) :
    Except String (List (String × BamlValue)) :=
  match kvs with
  | [] => .ok acc
  | (k, v) :: rest =>
    match term_to_string k with
    | .error e => .error e
    | .ok key =>
      match term_to_baml_value v with
      | .error e => .error e
      | .ok value => decodeMapEntries rest (bamlMapInsert acc key value)

end

/-- Erlang map_put on a map term: replace the value of a structurally equal
key, otherwise add the entry. -/
def termMapPut (m : List (ETerm × ETerm)) (k : ETerm) (v : ETerm) :
    List (ETerm × ETerm) :=
  match m with
  | [] => [(k, v)]
  | (k', v') :: rest =>
    if ETerm.beq k' k then (k', v) :: rest else (k', v') :: termMapPut rest k v

mutual

/-- baml_value_to_term from lib.rs (lines 80-141).  Strings encode as
binaries, booleans as the atoms true/false, Null as the nil atom; Map entries
keep string (binary) keys; Class injects the reserved __baml_class__ atom key
holding the class name and encodes field keys as atoms; Enum becomes a
two-entry map under the atom keys __baml_enum__ and value; Media is
rejected. -/
def baml_value_to_term (v : BamlValue) : Except String ETerm :=
  match v with
  | .string s => .ok (.binary s)
  | .int i => .ok (.int i)
  | .float bits => .ok (.float bits)
  | .bool b => .ok (.atom (if b then "true" else "false"))
  | .null => .ok (.atom "nil")
  | .list items =>
    match encodeListElems items with
    | .ok ts => .ok (.list ts)
    | .error e => .error e
  | .map entries =>
    match encodeMapEntries entries [] with
    | .ok kvs => .ok (.map kvs)
    | .error e => .error e
  | .cls name fields =>
    match encodeClassFields fields (termMapPut [] (.atom "__baml_class__") (.binary name)) with
    | .ok kvs => .ok (.map kvs)
    | .error e => .error e
  | .media => .error "Media type not yet supported"
  | .enum enumType variant =>
    .ok (.map (termMapPut (termMapPut [] (.atom "__baml_enum__") (.binary enumType))
      (.atom "value") (.binary variant)))

/-- The element loop of the List arm of baml_value_to_term (lines 87-93). -/
def encodeListElems (items : List BamlValue) : Except String (List ETerm) :=
  match items with
  | [] => .ok []
  | v :: rest =>
    match baml_value_to_term v with
    | .error e => .error e
    | .ok t =>
      match encodeListElems rest with
      | .error e => .error e
      | .ok ts => .ok (t :: ts)

/-- The entry loop of the Map arm of baml_value_to_term (lines 94-103):
keys are encoded as binaries. -/
def encodeMapEntries (entries : List (String × BamlValue)) (acc : List (ETerm × ETerm)) :
    Except String (List (ETerm × ETerm)) :=
  match entries with
  | [] => .ok acc
  | (k, v) :: rest =>
    match baml_value_to_term v with
    | .error e => .error e
    | .ok t => encodeMapEntries rest (termMapPut acc (.binary k) t)

/-- The field loop of the Class arm of baml_value_to_term (lines 111-118):
field keys are encoded as atoms. -/
def encodeClassFields (fields : List (String × BamlValue)) (acc : List (ETerm × ETerm)) :
    Except String (List (ETerm × ETerm)) :=
  match fields with
  | [] => .ok acc
  | (k, v) :: rest =>
    match baml_value_to_term v with
    | .error e => .error e
    | .ok t => encodeClassFields rest (termMapPut acc (.atom k) t)

end

/-- The primitive kinds of baml_types TypeValue reachable from
type_builder.rs (Null and Media never occur there). -/
inductive TypeValue where
  | string
  | int
  | float
  | bool

/-- baml_types LiteralValue: the payloads of literal types. -/
inductive LiteralValue where
  | string (s : String)
  | int (i : Int)
  | bool (b : Bool)

/-- The TypeIR constructors reachable from type_builder.rs.  TypeIR.class and
TypeIR.r#enum of the source are rendered classRef and enumRef (class is a
Lean keyword); both carry only the referenced name. -/
inductive TypeIR where
  | primitive (k : TypeValue)
  | literal (v : LiteralValue)
  | classRef (name : String)
  | enumRef (name : String)
  | list (inner : TypeIR)
  | map (key value : TypeIR)
  | union (types : List TypeIR)

/-- A property of a class under construction: name, type set by set_type,
optional description meta. -/
structure FieldEntry where
  name : String
  type : Option TypeIR
  description : Option String

/-- A class entry of the registry: name and its properties in insertion
order. -/
structure ClassEntry where
  name : String
  fields : List FieldEntry

/-- An enum value entry: name and optional description meta. -/
structure ValueEntry where
  name : String
  description : Option String

/-- An enum entry of the registry: name and its values in insertion order. -/
structure EnumEntry where
  name : String
  values : List ValueEntry

/-- The TypeBuilder registry state (baml_runtime TypeBuilder): two
independent name-indexed namespaces, classes and enums. -/
structure Registry where
  classes : List ClassEntry
  enums : List EnumEntry

/-- The empty registry (TypeBuilder::new). -/
def Registry.empty : Registry := { classes := [], enums := [] }

/-- Modelled from the spec: upsert_class of the external baml_runtime
TypeBuilder is get-or-create by name — an upsert on an already-present name
returns a handle to the existing entry rather than creating a duplicate.
Handles are modelled by the entry name (names are unique by construction). -/
def Registry.upsertClass (reg : Registry) (name : String) : Registry :=
  if reg.classes.any (fun c => c.name == name) then reg
  else { reg with classes := reg.classes ++ [{ name := name, fields := [] }] }

/-- Modelled from the spec: upsert_property on a class handle is
get-or-create of a field by name, preserving insertion order. -/
def Registry.upsertProperty (reg : Registry) (clsName fieldName : String) : Registry :=
  { reg with
    classes := reg.classes.map fun c =>
      if c.name == clsName then
        if c.fields.any (fun f => f.name == fieldName) then c
        else { c with fields := c.fields ++ [{ name := fieldName, type := none, description := none }] }
      else c }

/-- Modelled from the spec: set_type on a property handle stores the field
type. -/
def Registry.setPropertyType (reg : Registry) (clsName fieldName : String) (ty : TypeIR) :
    Registry :=
  { reg with
    classes := reg.classes.map fun c =>
      if c.name == clsName then
        { c with
          fields := c.fields.map fun f =>
            if f.name == fieldName then { f with type := some ty } else f }
      else c }

/-- Modelled from the spec: with_meta description on a property handle
stores the description text. -/
def Registry.setPropertyDescription (reg : Registry) (clsName fieldName d : String) :
    Registry :=
  { reg with
    classes := reg.classes.map fun c =>
      if c.name == clsName then
        { c with
          fields := c.fields.map fun f =>
            if f.name == fieldName then { f with description := some d } else f }
      else c }

/-- Modelled from the spec: upsert_enum of the external baml_runtime
TypeBuilder is get-or-create by name. -/
def Registry.upsertEnum (reg : Registry) (name : String) : Registry :=
  if reg.enums.any (fun e => e.name == name) then reg
  else { reg with enums := reg.enums ++ [{ name := name, values := [] }] }

/-- Modelled from the spec: upsert_value on an enum handle is get-or-create
of a value by name, preserving insertion order. -/
def Registry.upsertValue (reg : Registry) (enumName valueName : String) : Registry :=
  { reg with
    enums := reg.enums.map fun e =>
      if e.name == enumName then
        if e.values.any (fun v => v.name == valueName) then e
        else { e with values := e.values ++ [{ name := valueName, description := none }] }
      else e }

/-- Modelled from the spec: with_meta description on an enum value handle
stores the description text. -/
def Registry.setValueDescription (reg : Registry) (enumName valueName d : String) :
    Registry :=
  { reg with
    enums := reg.enums.map fun e =>
      if e.name == enumName then
        { e with
          values := e.values.map fun v =>
            if v.name == valueName then { v with description := some d } else v }
      else e }

/-- term_to_string from type_builder.rs (lines 466-475): atoms decode to
their text, binaries to themselves, anything else is an error. -/
def tb_term_to_string (t : ETerm) : Except String String :=
  match t with
  | .atom s => .ok s
  | .binary s => .ok s
  | _ => .error "Term is not a string or atom"

/-- is_list of a term. -/
def ETerm.isList : ETerm → Bool
  | .list _ => true
  | _ => false

/-- The discriminator loop of parse_type_builder_item (lines 34-52) and of
the map arm of parse_field_type (lines 293-306): walk every entry, remember
the last value of a __struct__ key (coerced to a string), propagate key or
value coercion failures, ignore other keys. -/
def scanStructType (kvs : List (ETerm × ETerm)) (acc : Option String) :
    Except String (Option String) :=
  match kvs with
  | [] => .ok acc
  | (k, v) :: rest =>
    match tb_term_to_string k with
    | .error e => .error e
    | .ok key =>
      if key = "__struct__" then
        match tb_term_to_string v with
        | .error e => .error e
        | .ok s => scanStructType rest (some s)
      else scanStructType rest acc

/-- The entry loop of parse_class_item (lines 88-99): collect the last name
(string-coerced) and the last fields value, ignore other keys. -/
def scanClassEntries (kvs : List (ETerm × ETerm)) (n : Option String) (f : Option ETerm) :
    Except String (Option String × Option ETerm) :=
  match kvs with
  | [] => .ok (n, f)
  | (k, v) :: rest =>
    match tb_term_to_string k with
    | .error e => .error e
    | .ok key =>
      if key = "name" then
        match tb_term_to_string v with
        | .error e => .error e
        | .ok s => scanClassEntries rest (some s) f
      else if key = "fields" then scanClassEntries rest n (some v)
      else scanClassEntries rest n f

/-- The entry loop of parse_enum_item (lines 129-140): collect the last name
and the last values value. -/
def scanEnumEntries (kvs : List (ETerm × ETerm)) (n : Option String) (vs : Option ETerm) :
    Except String (Option String × Option ETerm) :=
  match kvs with
  | [] => .ok (n, vs)
  | (k, v) :: rest =>
    match tb_term_to_string k with
    | .error e => .error e
    | .ok key =>
      if key = "name" then
        match tb_term_to_string v with
        | .error e => .error e
        | .ok s => scanEnumEntries rest (some s) vs
      else if key = "values" then scanEnumEntries rest n (some v)
      else scanEnumEntries rest n vs

/-- The entry loop of parse_field_item (lines 218-237): collect the last
name (string-coerced), the last type value (raw term) and the last
description (string-coerced), ignore other keys. -/
def scanFieldEntries (kvs : List (ETerm × ETerm)) (n : Option String) (ty : Option ETerm)
    (d : Option String) : Except String (Option String × Option ETerm × Option String) :=
  match kvs with
  | [] => .ok (n, ty, d)
  | (k, v) :: rest =>
    match tb_term_to_string k with
    | .error e => .error e
    | .ok key =>
      if key = "name" then
        match tb_term_to_string v with
        | .error e => .error e
        | .ok s => scanFieldEntries rest (some s) ty d
      else if key = "type" then scanFieldEntries rest n (some v) d
      else if key = "description" then
        match tb_term_to_string v with
        | .error e => .error e
        | .ok s => scanFieldEntries rest n ty (some s)
      else scanFieldEntries rest n ty d

/-- The entry loop of parse_enum_value_item (lines 165-191): check that a
__struct__ key holds the EnumValue struct name, collect the last value and
description (string-coerced). -/
def scanEnumValueEntries (kvs : List (ETerm × ETerm)) (n : Option String) (d : Option String) :
    Except String (Option String × Option String) :=
  match kvs with
  | [] => .ok (n, d)
  | (k, v) :: rest =>
    match tb_term_to_string k with
    | .error e => .error e
    | .ok key =>
      if key = "__struct__" then
        match tb_term_to_string v with
        | .error e => .error e
        | .ok s =>
          if s = "Elixir.BamlElixir.TypeBuilder.EnumValue" then
            scanEnumValueEntries rest n d
          else .error ("Expected EnumValue struct, got: " ++ s)
      else if key = "value" then
        match tb_term_to_string v with
        | .error e => .error e
        | .ok s => scanEnumValueEntries rest (some s) d
      else if key = "description" then
        match tb_term_to_string v with
        | .error e => .error e
        | .ok s => scanEnumValueEntries rest n (some s)
      else scanEnumValueEntries rest n d

/-- The entry loop of the Class arm of the map branch of parse_field_type
(lines 311-329): collect the last name and whether a fields key held a
list. -/
def scanClassRef (kvs : List (ETerm × ETerm)) (n : Option String) (hasFields : Bool) :
    Except String (Option String × Bool) :=
  match kvs with
  | [] => .ok (n, hasFields)
  | (k, v) :: rest =>
    match tb_term_to_string k with
    | .error e => .error e
    | .ok key =>
      if key = "name" then
        match tb_term_to_string v with
        | .error e => .error e
        | .ok s => scanClassRef rest (some s) hasFields
      else if key = "fields" then scanClassRef rest n (hasFields || v.isList)
      else scanClassRef rest n hasFields

/-- The entry loop of the Enum arm of the map branch of parse_field_type
(lines 425-443): collect the last name and whether a values key held a
list. -/
def scanEnumRef (kvs : List (ETerm × ETerm)) (n : Option String) (hasValues : Bool) :
    Except String (Option String × Bool) :=
  match kvs with
  | [] => .ok (n, hasValues)
  | (k, v) :: rest =>
    match tb_term_to_string k with
    | .error e => .error e
    | .ok key =>
      if key = "name" then
        match tb_term_to_string v with
        | .error e => .error e
        | .ok s => scanEnumRef rest (some s) hasValues
      else if key = "values" then scanEnumRef rest n (hasValues || v.isList)
      else scanEnumRef rest n hasValues

/-- Any fields term found by scanClassEntries starting from no accumulator is
one of the scanned map values, hence structurally smaller than the entry
list.  Used for termination of the declaration parser. -/
theorem scanClassEntries_fields_sizeOf (kvs : List (ETerm × ETerm)) :
    ∀ n f n' ft, scanClassEntries kvs n f = .ok (n', some ft) →
      f = some ft ∨ sizeOf ft < sizeOf kvs := by
  induction kvs with
  | nil =>
    intro n f n' ft h
    simp only [scanClassEntries] at h
    cases h
    exact Or.inl rfl
  | cons p rest ih =>
    intro n f n' ft h
    obtain ⟨k, v⟩ := p
    have hsz : sizeOf rest < sizeOf ((k, v) :: rest) ∧
        sizeOf v < sizeOf ((k, v) :: rest) := by
      simp only [List.cons.sizeOf_spec, Prod.mk.sizeOf_spec]
      omega
    simp only [scanClassEntries] at h
    have hstep : ∀ n0 f0, scanClassEntries rest n0 f0 = .ok (n', some ft) →
        f0 = some ft ∨ sizeOf ft < sizeOf ((k, v) :: rest) := by
      intro n0 f0 h0
      rcases ih n0 f0 n' ft h0 with h1 | h1
      · exact Or.inl h1
      · exact Or.inr (lt_trans h1 hsz.1)
    split at h
    · exact absurd h (by simp)
    · split at h
      · split at h
        · exact absurd h (by simp)
        · exact hstep _ _ h
      · split at h
        · rcases hstep _ _ h with h1 | h1
          · have hv : v = ft := Option.some.inj h1
            exact Or.inr (hv ▸ hsz.2)
          · exact Or.inr h1
        · exact hstep _ _ h

/-- Any type term found by scanFieldEntries starting from no accumulator is
one of the scanned map values, hence structurally smaller than the entry
list.  Used for termination of the declaration parser. -/
theorem scanFieldEntries_type_sizeOf (kvs : List (ETerm × ETerm)) :
    ∀ n ty d n' tt d', scanFieldEntries kvs n ty d = .ok (n', some tt, d') →
      ty = some tt ∨ sizeOf tt < sizeOf kvs := by
  induction kvs with
  | nil =>
    intro n ty d n' tt d' h
    simp only [scanFieldEntries] at h
    cases h
    exact Or.inl rfl
  | cons p rest ih =>
    intro n ty d n' tt d' h
    obtain ⟨k, v⟩ := p
    have hsz : sizeOf rest < sizeOf ((k, v) :: rest) ∧
        sizeOf v < sizeOf ((k, v) :: rest) := by
      simp only [List.cons.sizeOf_spec, Prod.mk.sizeOf_spec]
      omega
    simp only [scanFieldEntries] at h
    have hstep : ∀ n0 ty0 d0, scanFieldEntries rest n0 ty0 d0 = .ok (n', some tt, d') →
        ty0 = some tt ∨ sizeOf tt < sizeOf ((k, v) :: rest) := by
      intro n0 ty0 d0 h0
      rcases ih n0 ty0 d0 n' tt d' h0 with h1 | h1
      · exact Or.inl h1
      · exact Or.inr (lt_trans h1 hsz.1)
    split at h
    · exact absurd h (by simp)
    · split at h
      · split at h
        · exact absurd h (by simp)
        · exact hstep _ _ _ h
      · split at h
        · rcases hstep _ _ _ h with h1 | h1
          · have hv : v = tt := Option.some.inj h1
            exact Or.inr (hv ▸ hsz.2)
          · exact Or.inr h1
        · split at h
          · split at h
            · exact absurd h (by simp)
            · exact hstep _ _ _ h
          · exact hstep _ _ _ h

/-- parse_enum_value_item from type_builder.rs (lines 161-205): the term must
be a map; scan it (checking any __struct__ entry names the EnumValue
struct); a value name is required; then upsert_value and optionally attach
the description.  The enum handle argument is the enum name (handles are
name-indexed in the registry model). -/
def parse_enum_value_item (t : ETerm) (enumName : String) (reg : Registry) :
    Except String Unit × Registry :=
  match t with
  | .map kvs =>
    match scanEnumValueEntries kvs none none with
    | .error e => (.error e, reg)
    | .ok (none, _) => (.error "Enum value missing value field", reg)
    | .ok (some valueName, desc) =>
      let reg' := reg.upsertValue enumName valueName
      match desc with
      | some d => (.ok (), reg'.setValueDescription enumName valueName d)
      | none => (.ok (), reg')
  | _ => (.error "Invalid enum value map", reg)

/-- The value loop of parse_enum_item (lines 149-155): apply each value item
in order, stopping at the first failure (already-applied values remain). -/
def parse_enum_value_items (vs : List ETerm) (enumName : String) (reg : Registry) :
    Except String Unit × Registry :=
  match vs with
  | [] => (.ok (), reg)
  | v :: rest =>
    match parse_enum_value_item v enumName reg with
    | (.ok _, reg') => parse_enum_value_items rest enumName reg'
    | (.error e, reg') => (.error e, reg')

/-- parse_enum_item from type_builder.rs (lines 120-159), taking the entry
list of the (already checked) map term: scan for name and values; both are
required; upsert_enum happens after those checks; a non-list values term
fails after the upsert. -/
def parse_enum_item (kvs : List (ETerm × ETerm)) (reg : Registry) :
    Except String Unit × Registry :=
  match scanEnumEntries kvs none none with
  | .error e => (.error e, reg)
  | .ok (none, _) => (.error "Enum missing name field", reg)
  | .ok (some _, none) => (.error "Enum missing values", reg)
  | .ok (some name, some (.list valueList)) =>
    parse_enum_value_items valueList name (reg.upsertEnum name)
  | .ok (some name, some _) => (.error "Enum values must be a list", reg.upsertEnum name)

mutual

/-- parse_class_item from type_builder.rs (lines 75-118), taking the entry
list of the (already checked) map term: scan for name and fields; both are
required; upsert_class happens after those checks; then the fields term must
be a list (checked after the upsert) and each field item is applied in
order. -/
def parse_class_item (kvs : List (ETerm × ETerm)) (reg : Registry) :
    Except String Unit × Registry :=
  match _h : scanClassEntries kvs none none with
  | .error e => (.error e, reg)
  | .ok (none, _) => (.error "Class missing name field", reg)
  | .ok (some _, none) => (.error "Class missing fields", reg)
  | .ok (some name, some (.list fieldList)) =>
    parse_field_items fieldList name (reg.upsertClass name)
  | .ok (some name, some _) => (.error "Class fields must be a list", reg.upsertClass name)
termination_by sizeOf kvs
decreasing_by
  rcases scanClassEntries_fields_sizeOf _ _ _ _ _ _h with h2 | h2
  · exact absurd h2 (by simp)
  · simp only [ETerm.list.sizeOf_spec] at h2
    omega

/-- The field loop of parse_class_item (lines 108-115): apply each field item
in order, stopping at the first failure (already-applied fields remain). -/
def parse_field_items (fs : List ETerm) (clsName : String) (reg : Registry) :
    Except String Unit × Registry :=
  match fs with
  | [] => (.ok (), reg)
  | f :: rest =>
    match parse_field_item f clsName reg with
    | (.ok _, reg') => parse_field_items rest clsName reg'
    | (.error e, reg') => (.error e, reg')
termination_by sizeOf fs

/-- parse_field_item from type_builder.rs (lines 207-261): the term must be
a map; scan for name, type and description; name and type are required; the
type payload is parsed first (its side effects on the registry happen even
if nothing else does), then upsert_property, set_type and optionally the
description meta.  The dead parent_class parameter of the source (passed
through but never read) is omitted. -/
def parse_field_item (t : ETerm) (clsName : String) (reg : Registry) :
    Except String Unit × Registry :=
  match t with
  | .map kvs =>
    match _h : scanFieldEntries kvs none none none with
    | .error e => (.error e, reg)
    | .ok (none, _, _) => (.error "Missing field name", reg)
    | .ok (some _, none, _) => (.error "Missing field type", reg)
    | .ok (some fieldName, some typeTerm, desc) =>
      match parse_field_type typeTerm reg with
      | (.error e, reg') => (.error e, reg')
      | (.ok ty, reg') =>
        let reg'' := (reg'.upsertProperty clsName fieldName).setPropertyType clsName fieldName ty
        match desc with
        | some d => (.ok (), reg''.setPropertyDescription clsName fieldName d)
        | none => (.ok (), reg'')
  | _ => (.error "Field must be a map", reg)
termination_by sizeOf t
decreasing_by
  rcases scanFieldEntries_type_sizeOf _ _ _ _ _ _ _ _h with h2 | h2
  · exact absurd h2 (by simp)
  · simp only [ETerm.map.sizeOf_spec]
    omega

/-- parse_field_type from type_builder.rs (lines 263-463).  Branch order
follows the source: atom (primitive name or bare class reference), string
literal, integer literal, boolean literal (unreachable: Elixir booleans are
atoms and are caught by the atom branch), then the TypeBuilder struct map
shapes, and a rejecting default.  An integer outside the i64 range is
rejected (same host modelling note as term_to_baml_value).  The dead
parent_class and field_name parameters of the source (passed through but
never read) are omitted. -/
def parse_field_type (t : ETerm) (reg : Registry) : Except String TypeIR × Registry :=
  match t with
  | .atom s =>
    if s = "string" then (.ok (.primitive .string), reg)
    else if s = "int" then (.ok (.primitive .int), reg)
    else if s = "float" then (.ok (.primitive .float), reg)
    else if s = "bool" then (.ok (.primitive .bool), reg)
    else (.ok (.classRef s), reg)
  | .binary s => (.ok (.literal (.string s)), reg)
  | .int i =>
    if fitsI64 i then (.ok (.literal (.int i)), reg)
    else (.error "Unsupported field type", reg)
  | .map kvs =>
    (match scanStructType kvs none with
     | .error e => (.error e, reg)
     | .ok none => (.error "Unsupported TypeBuilder struct: none", reg)
     | .ok (some structName) =>
       if structName = "Elixir.BamlElixir.TypeBuilder.Class" then
         match scanClassRef kvs none false with
         | .error e => (.error e, reg)
         | .ok (some name, true) =>
           (match parse_class_item kvs reg with
            | (.ok _, reg') => (.ok (.classRef name), reg')
            | (.error e, reg') => (.error e, reg'))
         | .ok (some name, false) => (.ok (.classRef name), reg)
         | .ok (none, _) => (.error "Could not extract class name", reg)
       else if structName = "Elixir.BamlElixir.TypeBuilder.List" then
         parseListTypeEntries kvs reg
       else if structName = "Elixir.BamlElixir.TypeBuilder.Map" then
         parseMapTypeEntries kvs none none reg
       else if structName = "Elixir.BamlElixir.TypeBuilder.Union" then
         parseUnionEntries kvs reg
       else if structName = "Elixir.BamlElixir.TypeBuilder.Enum" then
         match scanEnumRef kvs none false with
         | .error e => (.error e, reg)
         | .ok (some name, true) =>
           (match parse_enum_item kvs reg with
            | (.ok _, reg') => (.ok (.enumRef name), reg')
            | (.error e, reg') => (.error e, reg'))
         | .ok (some name, false) => (.ok (.enumRef name), reg)
         | .ok (none, _) => (.error "Could not extract enum name", reg)
       else (.error ("Unsupported TypeBuilder struct: some " ++ structName), reg))
  | _ => (.error "Unsupported field type", reg)
termination_by sizeOf t

/-- The entry loop of the List arm of parse_field_type (lines 341-354):
the first type entry determines the inner type; no type entry is an
error. -/
def parseListTypeEntries (kvs : List (ETerm × ETerm)) (reg : Registry) :
    Except String TypeIR × Registry :=
  match kvs with
  | [] => (.error "Could not extract list inner type", reg)
  | (k, v) :: rest =>
    match tb_term_to_string k with
    | .error e => (.error e, reg)
    | .ok key =>
      if key = "type" then
        match parse_field_type v reg with
        | (.ok inner, reg') => (.ok (.list inner), reg')
        | (.error e, reg') => (.error e, reg')
      else parseListTypeEntries rest reg
termination_by sizeOf kvs

/-- The entry loop of the Map arm of parse_field_type (lines 355-393):
key_type and value_type entries are parsed as they are encountered (the
last of each wins); both are required at the end. -/
def parseMapTypeEntries (kvs : List (ETerm × ETerm)) (kt vt : Option TypeIR) (reg : Registry) :
    Except String TypeIR × Registry :=
  match kvs with
  | [] =>
    (match kt, vt with
     | some k, some v => (.ok (.map k v), reg)
     | _, _ => (.error "Could not extract map key and value types", reg))
  | (k, v) :: rest =>
    match tb_term_to_string k with
    | .error e => (.error e, reg)
    | .ok key =>
      if key = "key_type" then
        match parse_field_type v reg with
        | (.ok ty, reg') => parseMapTypeEntries rest (some ty) vt reg'
        | (.error e, reg') => (.error e, reg')
      else if key = "value_type" then
        match parse_field_type v reg with
        | (.ok ty, reg') => parseMapTypeEntries rest kt (some ty) reg'
        | (.error e, reg') => (.error e, reg')
      else parseMapTypeEntries rest kt vt reg
termination_by sizeOf kvs

/-- The entry loop of the Union arm of parse_field_type (lines 394-422):
the first types entry decides; it must hold a list, whose members are
parsed in order; no types entry is an error. -/
def parseUnionEntries (kvs : List (ETerm × ETerm)) (reg : Registry) :
    Except String TypeIR × Registry :=
  match kvs with
  | [] => (.error "Could not extract union types", reg)
  | (k, v) :: rest =>
    match tb_term_to_string k with
    | .error e => (.error e, reg)
    | .ok key =>
      if key = "types" then
        match v with
        | .list ts => parseUnionTypes ts [] reg
        | _ => (.error "Union types must be a list", reg)
      else parseUnionEntries rest reg
termination_by sizeOf kvs

/-- The member loop of the Union arm (lines 403-415): parse each union
member in order, collecting the results. -/
def parseUnionTypes (ts : List ETerm) (acc : List TypeIR) (reg : Registry) :
    Except String TypeIR × Registry :=
  match ts with
  | [] => (.ok (.union acc), reg)
  | t :: rest =>
    match parse_field_type t reg with
    | (.ok ty, reg') => parseUnionTypes rest (acc ++ [ty]) reg'
    | (.error e, reg') => (.error e, reg')
termination_by sizeOf ts

end

/-- parse_type_builder_item from type_builder.rs (lines 25-73): the item must
be a map; its __struct__ discriminator selects the class path or the enum
path; any other discriminator, or a missing one, fails without touching the
registry. -/
def parse_type_builder_item (t : ETerm) (reg : Registry) : Except String Unit × Registry :=
  match t with
  | .map kvs =>
    (match scanStructType kvs none with
     | .error e => (.error e, reg)
     | .ok (some structName) =>
       if structName = "Elixir.BamlElixir.TypeBuilder.Class" then parse_class_item kvs reg
       else if structName = "Elixir.BamlElixir.TypeBuilder.Enum" then parse_enum_item kvs reg
       else (.error ("Unsupported TypeBuilder struct: " ++ structName), reg)
     | .ok none => (.error "Missing __struct__ field", reg))
  | _ => (.error "TypeBuilder item must be a map", reg)

/-- The item loop of parse_type_builder_spec (lines 18-21): apply the items
in the caller-given order, stopping at the first failure (declarations
already applied remain). -/
def parse_tb_items (items : List ETerm) (reg : Registry) : Except String Unit × Registry :=
  match items with
  | [] => (.ok (), reg)
  | t :: rest =>
    match parse_type_builder_item t reg with
    | (.ok _, reg') => parse_tb_items rest reg'
    | (.error e, reg') => (.error e, reg')

/-- parse_type_builder_spec from type_builder.rs (lines 6-23): the
specification must be a list of items. -/
def parse_type_builder_spec (t : ETerm) (reg : Registry) : Except String Unit × Registry :=
  match t with
  | .list items => parse_tb_items items reg
  | _ => (.error "TypeBuilder specification must be a list", reg)

/-- Decode after encode: the round-trip composition of the spec contract
decode(encode(v)). -/
def roundtrip (v : BamlValue) : Except String BamlValue :=
  match baml_value_to_term v with
  | .ok t => term_to_baml_value t
  | .error e => .error e

/-- Boolean membership test on strings. -/
def strIn (s : String) (l : List String) : Bool :=
  match l with
  | [] => false
  | x :: xs => s == x || strIn s xs

/-- Boolean test that a list of strings has no duplicates. -/
def noDupStr : List String → Bool
  | [] => true
  | x :: xs => !(strIn x xs) && noDupStr xs

mutual
/-- The fragment of BamlValue on which the round-trip law holds: Null, Int in
the i64 range, Float, String, List and Map (with the keys of every map
pairwise distinct, as they are in a real BamlMap).  Bool, Class, Enum and
Media are excluded. -/
def isSimple : BamlValue → Bool
  | .string _ => true
  | .int i => decide (fitsI64 i)
  | .float _ => true
  | .null => true
  | .list items => isSimpleList items
  | .map entries => noDupStr (entries.map Prod.fst) && isSimpleEntries entries
  | _ => false

def isSimpleList : List BamlValue → Bool
  | [] => true
  | v :: rest => isSimple v && isSimpleList rest

def isSimpleEntries : List (String × BamlValue) → Bool
  | [] => true
  | (_, v) :: rest => isSimple v && isSimpleEntries rest
end

theorem strIn_false_iff (s : String) (l : List String) : strIn s l = false ↔ s ∉ l := by
  induction l with
  | nil => simp [strIn]
  | cons x xs ih =>
    simp only [strIn, Bool.or_eq_false_iff, beq_eq_false_iff_ne, ih, List.mem_cons, not_or,
      ne_eq]

theorem isSimpleList_mem {xs : List BamlValue} (h : isSimpleList xs = true) :
    ∀ v ∈ xs, isSimple v = true := by
  induction xs with
  | nil => simp
  | cons x rest ih =>
    simp only [isSimpleList, Bool.and_eq_true] at h
    intro v hv
    rcases List.mem_cons.mp hv with rfl | hv
    · exact h.1
    · exact ih h.2 v hv

theorem isSimpleEntries_mem {m : List (String × BamlValue)} (h : isSimpleEntries m = true) :
    ∀ p ∈ m, isSimple p.2 = true := by
  induction m with
  | nil => simp
  | cons p rest ih =>
    obtain ⟨k, v⟩ := p
    simp only [isSimpleEntries, Bool.and_eq_true] at h
    intro q hq
    rcases List.mem_cons.mp hq with rfl | hq
    · exact h.1
    · exact ih h.2 q hq

theorem bamlMapInsert_append (acc : List (String × BamlValue)) (k : String) (v : BamlValue)
    (h : k ∉ acc.map Prod.fst) : bamlMapInsert acc k v = acc ++ [(k, v)] := by
  induction acc with
  | nil => simp [bamlMapInsert]
  | cons p rest ih =>
    obtain ⟨k', v'⟩ := p
    simp only [List.map_cons, List.mem_cons] at h
    push_neg at h
    simp [bamlMapInsert, Ne.symm h.1, ih h.2]

theorem termMapPut_append (acc : List (ETerm × ETerm)) (k v : ETerm)
    (h : ∀ p ∈ acc, ETerm.beq p.1 k = false) : termMapPut acc k v = acc ++ [(k, v)] := by
  induction acc with
  | nil => simp [termMapPut]
  | cons p rest ih =>
    obtain ⟨k', v'⟩ := p
    have hk : ETerm.beq k' k = false := h (k', v') (List.mem_cons_self _ _)
    simp [termMapPut, hk]
    exact ih fun q hq => h q (List.mem_cons_of_mem _ hq)

theorem ETerm.beq_binary (a b : String) : ETerm.beq (.binary a) (.binary b) = (a == b) := by
  simp [ETerm.beq]

theorem roundtrip_split {v w : BamlValue} (h : roundtrip v = .ok w) :
    ∃ t, baml_value_to_term v = .ok t ∧ term_to_baml_value t = .ok w := by
  unfold roundtrip at h
  split at h
  · exact ⟨_, by assumption, h⟩
  · exact absurd h (by simp)

theorem encodeListElems_spec (xs : List BamlValue)
    (h : ∀ v ∈ xs, ∃ t, baml_value_to_term v = .ok t ∧ term_to_baml_value t = .ok v) :
    ∃ ts, encodeListElems xs = .ok ts ∧
      List.Forall₂ (fun t v => term_to_baml_value t = .ok v) ts xs := by
  induction xs with
  | nil => exact ⟨[], by simp [encodeListElems], List.Forall₂.nil⟩
  | cons x rest ih =>
    obtain ⟨t, het, hdt⟩ := h x (List.mem_cons_self _ _)
    obtain ⟨ts, hets, hrel⟩ := ih fun v hv => h v (List.mem_cons_of_mem _ hv)
    exact ⟨t :: ts, by simp [encodeListElems, het, hets], List.Forall₂.cons hdt hrel⟩

theorem decodeListElems_spec (ts : List ETerm) (xs : List BamlValue)
    (hrel : List.Forall₂ (fun t v => term_to_baml_value t = .ok v) ts xs) :
    decodeListElems ts = .ok xs := by
  induction hrel with
  | nil => simp [decodeListElems]
  | cons h₁ h₂ ih => simp [decodeListElems, h₁, ih]

theorem encodeMapEntries_spec (m : List (String × BamlValue)) :
    ∀ tacc, (∀ p ∈ m, ∃ t, baml_value_to_term p.2 = .ok t ∧ term_to_baml_value t = .ok p.2) →
    noDupStr (m.map Prod.fst) = true →
    (∀ p ∈ m, ∀ q ∈ tacc, ETerm.beq q.1 (.binary p.1) = false) →
    ∃ ts, encodeMapEntries m tacc = .ok (tacc ++ ts) ∧
      List.Forall₂ (fun (tp : ETerm × ETerm) (p : String × BamlValue) =>
        tp.1 = .binary p.1 ∧ term_to_baml_value tp.2 = .ok p.2) ts m := by
  induction m with
  | nil =>
    intro tacc _ _ _
    exact ⟨[], by simp [encodeMapEntries], List.Forall₂.nil⟩
  | cons p rest ih =>
    intro tacc hv hnd hdisj
    obtain ⟨k, v⟩ := p
    obtain ⟨t, het, hdt⟩ := hv (k, v) (List.mem_cons_self _ _)
    have hput : termMapPut tacc (.binary k) t = tacc ++ [(.binary k, t)] :=
      termMapPut_append _ _ _ fun q hq => hdisj (k, v) (List.mem_cons_self _ _) q hq
    simp only [List.map_cons, noDupStr, Bool.and_eq_true, Bool.not_eq_true'] at hnd
    have hknot : k ∉ rest.map Prod.fst := (strIn_false_iff _ _).mp hnd.1
    have hdisj' : ∀ p' ∈ rest, ∀ q ∈ tacc ++ [(.binary k, t)],
        ETerm.beq q.1 (.binary p'.1) = false := by
      intro p' hp' q hq
      rcases List.mem_append.mp hq with hq | hq
      · exact hdisj p' (List.mem_cons_of_mem _ hp') q hq
      · simp only [List.mem_singleton] at hq
        subst hq
        simp only [ETerm.beq_binary]
        refine beq_eq_false_iff_ne.mpr ?_
        intro hkp
        exact hknot (hkp ▸ List.mem_map_of_mem Prod.fst hp')
    obtain ⟨ts, hets, hrel⟩ := ih (tacc ++ [(.binary k, t)])
      (fun p' hp' => hv p' (List.mem_cons_of_mem _ hp')) hnd.2 hdisj'
    refine ⟨(.binary k, t) :: ts, ?_, List.Forall₂.cons ⟨rfl, hdt⟩ hrel⟩
    simp only [encodeMapEntries, het, hput, hets]
    simp

theorem decodeMapEntries_spec (ts : List (ETerm × ETerm)) :
    ∀ (m : List (String × BamlValue)),
    List.Forall₂ (fun (tp : ETerm × ETerm) (p : String × BamlValue) =>
      tp.1 = .binary p.1 ∧ term_to_baml_value tp.2 = .ok p.2) ts m →
    ∀ bacc, (∀ p ∈ m, p.1 ∉ bacc.map Prod.fst) → noDupStr (m.map Prod.fst) = true →
    decodeMapEntries ts bacc = .ok (bacc ++ m) := by
  induction ts with
  | nil =>
    intro m hrel bacc _ _
    cases hrel
    simp [decodeMapEntries]
  | cons tp ts' ih =>
    intro m hrel bacc hnotin hnd
    cases hrel with
    | cons hR hrel' =>
      rename_i p m'
      obtain ⟨tk, tv⟩ := tp
      obtain ⟨hk, hv⟩ := hR
      have hins : bamlMapInsert bacc p.1 p.2 = bacc ++ [(p.1, p.2)] :=
        bamlMapInsert_append _ _ _ (hnotin p (List.mem_cons_self _ _))
    -- the keys of the remaining entries avoid both bacc and the inserted key
      simp only [List.map_cons, noDupStr, Bool.and_eq_true, Bool.not_eq_true'] at hnd
      have hpnot : p.1 ∉ m'.map Prod.fst := (strIn_false_iff _ _).mp hnd.1
      have hnotin' : ∀ q ∈ m', q.1 ∉ (bacc ++ [(p.1, p.2)]).map Prod.fst := by
        intro q hq
        simp only [List.map_append, List.mem_append, List.map_cons, List.map_nil,
          List.mem_singleton, not_or]
        refine ⟨hnotin q (List.mem_cons_of_mem _ hq), ?_⟩
        intro hqp
        exact hpnot (hqp ▸ List.mem_map_of_mem Prod.fst hq)
      have hrec := ih m' hrel' (bacc ++ [(p.1, p.2)]) hnotin' hnd.2
      subst hk
      simp only [decodeMapEntries, term_to_string, hv, hins, hrec]
      simp

theorem roundtrip_isSimple_aux :
    ∀ (n : Nat) (v : BamlValue), sizeOf v ≤ n → isSimple v = true → roundtrip v = .ok v := by
  intro n
  induction n with
  | zero =>
    intro v hsz _
    exfalso
    cases v <;> simp at hsz
  | succ n ih =>
    intro v hsz hsimp
    cases v with
    | string s => simp [roundtrip, baml_value_to_term, term_to_baml_value]
    | int i =>
      have hfit : fitsI64 i := by simpa [isSimple] using hsimp
      simp [roundtrip, baml_value_to_term, term_to_baml_value, hfit]
    | float b => simp [roundtrip, baml_value_to_term, term_to_baml_value]
    | null => simp [roundtrip, baml_value_to_term, term_to_baml_value]
    | bool b => exact absurd hsimp (by simp [isSimple])
    | cls name fields => exact absurd hsimp (by simp [isSimple])
    | enum t vr => exact absurd hsimp (by simp [isSimple])
    | media => exact absurd hsimp (by simp [isSimple])
    | list items =>
      have hs : isSimpleList items = true := by simpa [isSimple] using hsimp
      have hel : ∀ x ∈ items, ∃ t, baml_value_to_term x = .ok t ∧
          term_to_baml_value t = .ok x := by
        intro x hx
        have hlt := List.sizeOf_lt_of_mem hx
        have hsl : sizeOf (BamlValue.list items) = 1 + sizeOf items := by simp
        exact roundtrip_split (ih x (by omega) (isSimpleList_mem hs x hx))
      obtain ⟨ts, hts, hrel⟩ := encodeListElems_spec items hel
      have hdec : decodeListElems ts = .ok items := decodeListElems_spec _ _ hrel
      simp [roundtrip, baml_value_to_term, hts, term_to_baml_value, hdec]
    | map entries =>
      have hsm : noDupStr (entries.map Prod.fst) = true ∧ isSimpleEntries entries = true := by
        simpa [isSimple] using hsimp
      have hel : ∀ p ∈ entries, ∃ t, baml_value_to_term p.2 = .ok t ∧
          term_to_baml_value t = .ok p.2 := by
        intro p hp
        have hlt := List.sizeOf_lt_of_mem hp
        have hlt2 : sizeOf p.2 < sizeOf p := by
          obtain ⟨a, b⟩ := p
          simp only [Prod.mk.sizeOf_spec]
          omega
        have hsm2 : sizeOf (BamlValue.map entries) = 1 + sizeOf entries := by simp
        exact roundtrip_split (ih p.2 (by omega) (isSimpleEntries_mem hsm.2 p hp))
      obtain ⟨ts, hts, hrel⟩ := encodeMapEntries_spec entries [] hel hsm.1
        (by intro p hp q hq; simp at hq)
      have hdec : decodeMapEntries ts [] = .ok ([] ++ entries) :=
        decodeMapEntries_spec _ _ hrel [] (by simp) hsm.1
      simp only [List.nil_append] at hts hdec
      simp [roundtrip, baml_value_to_term, hts, term_to_baml_value, hdec]

theorem term_to_baml_value_int_ok (i : Int) (h : fitsI64 i) :
    term_to_baml_value (.int i) = .ok (.int i) := by
  simp [term_to_baml_value, h]

/-- C1 counterexample: the round-trip law fails on Class, Enum and Bool
values.  An encoded Class decodes back to a plain Map carrying the reserved
marker as an ordinary entry (term_to_baml_value has no arm that recognises
the __baml_class__ or __baml_enum__ markers), and an encoded Bool (an atom)
is rejected by decode outright. -/
theorem c1_roundtrip_counterexample :
    roundtrip (.cls "Pet" [("name", .string "Fido")]) =
      .ok (.map [("__baml_class__", .string "Pet"), ("name", .string "Fido")]) ∧
    roundtrip (.enum "Color" "red") =
      .ok (.map [("__baml_enum__", .string "Color"), ("value", .string "red")]) ∧
    roundtrip (.bool true) = .error "Unsupported type" ∧
    BamlValue.map [("__baml_class__", .string "Pet"), ("name", .string "Fido")] ≠
      .cls "Pet" [("name", .string "Fido")] := by
  refine ⟨?_, ?_, ?_, by simp⟩ <;>
    simp [roundtrip, baml_value_to_term, encodeClassFields, termMapPut, ETerm.beq,
      term_to_baml_value, decodeMapEntries, bamlMapInsert, term_to_string]

/-- C1 (amended): decode(encode(v)) = v holds exactly on the fragment without
Bool, Class, Enum and Media — Null, i64-range Int, Float, String, List and
Map (with distinct keys, as in any real BamlMap). -/
theorem c1_roundtrip_simple (v : BamlValue) (h : isSimple v = true) :
    roundtrip v = .ok v :=
  roundtrip_isSimple_aux (sizeOf v) v le_rfl h

/-- C1 witness: a concrete nested simple value round-trips. -/
theorem c1_roundtrip_simple_witness :
    isSimple (.map [("a", .list [.int 1, .null]), ("b", .float 5)]) = true ∧
    roundtrip (.map [("a", .list [.int 1, .null]), ("b", .float 5)]) =
      .ok (.map [("a", .list [.int 1, .null]), ("b", .float 5)]) := by
  have h : isSimple (BamlValue.map [("a", .list [.int 1, .null]), ("b", .float 5)]) = true := by
    simp [isSimple, isSimpleList, isSimpleEntries, noDupStr, strIn, fitsI64]
  exact ⟨h, c1_roundtrip_simple _ h⟩

/-- C3: decode tries exact i64 interpretation first, so every integer term in
the signed 64-bit range decodes to Int (never Float), and a Float arises only
from a float term. -/
theorem c3_integer_decodes_exact (i : Int) (h : fitsI64 i) :
    term_to_baml_value (.int i) = .ok (.int i) ∧
    (∀ bits, term_to_baml_value (.float bits) = .ok (.float bits)) := by
  refine ⟨term_to_baml_value_int_ok i h, fun bits => ?_⟩
  simp [term_to_baml_value]

/-- C3 witness: 42 is in range and decodes to Int 42. -/
theorem c3_integer_decodes_exact_witness :
    fitsI64 42 ∧ term_to_baml_value (.int 42) = .ok (.int 42) :=
  ⟨by decide, (c3_integer_decodes_exact 42 (by decide)).1⟩

theorem bamlMapInsert_mem {acc : List (String × BamlValue)} {k : String} {v : BamlValue}
    {p : String × BamlValue} (h : p ∈ bamlMapInsert acc k v) : p ∈ acc ∨ p = (k, v) := by
  induction acc with
  | nil => simpa [bamlMapInsert] using h
  | cons q rest ih =>
    obtain ⟨k', v'⟩ := q
    simp only [bamlMapInsert] at h
    split at h
    · rename_i hk
      rcases List.mem_cons.mp h with rfl | h
      · exact Or.inr (by rw [hk])
      · exact Or.inl (List.mem_cons_of_mem _ h)
    · rcases List.mem_cons.mp h with rfl | h
      · exact Or.inl (List.mem_cons_self _ _)
      · rcases ih h with h | h
        · exact Or.inl (List.mem_cons_of_mem _ h)
        · exact Or.inr h

theorem decodeMapEntries_mem (kvs : List (ETerm × ETerm)) :
    ∀ acc m, decodeMapEntries kvs acc = .ok m →
      ∀ p ∈ m, p ∈ acc ∨ ∃ kt vt, (kt, vt) ∈ kvs ∧ term_to_string kt = .ok p.1 ∧
        term_to_baml_value vt = .ok p.2 := by
  induction kvs with
  | nil =>
    intro acc m h p hp
    simp only [decodeMapEntries] at h
    cases h
    exact Or.inl hp
  | cons q rest ih =>
    intro acc m h p hp
    obtain ⟨kt, vt⟩ := q
    simp only [decodeMapEntries] at h
    split at h
    · exact absurd h (by simp)
    · rename_i key hkey
      split at h
      · exact absurd h (by simp)
      · rename_i value hvalue
        rcases ih _ _ h p hp with hin | ⟨kt', vt', hmem, h1, h2⟩
        · rcases bamlMapInsert_mem hin with hin | rfl
          · exact Or.inl hin
          · exact Or.inr ⟨kt, vt, List.mem_cons_self _ _, by simpa using hkey,
              by simpa using hvalue⟩
        · exact Or.inr ⟨kt', vt', List.mem_cons_of_mem _ hmem, h1, h2⟩

/-- C4: a map term always decodes (when decode succeeds) to a Map value —
never a Class — whose every entry arises from some input entry with the key
coerced to a string by term_to_string (an atom key is decoded by its name)
and the value decoded recursively. -/
theorem c4_map_decodes_to_map (kvs : List (ETerm × ETerm)) (v : BamlValue)
    (h : term_to_baml_value (.map kvs) = .ok v) :
    (∃ m, v = .map m ∧ ∀ p ∈ m, ∃ kt vt, (kt, vt) ∈ kvs ∧
      term_to_string kt = .ok p.1 ∧ term_to_baml_value vt = .ok p.2) ∧
    (∀ s, term_to_string (.atom s) = .ok s) ∧
    (∀ name fields, v ≠ .cls name fields) := by
  have hm : ∃ m, decodeMapEntries kvs [] = .ok m ∧ v = .map m := by
    simp only [term_to_baml_value] at h
    split at h
    · rename_i m hdm
      cases h
      exact ⟨m, hdm, rfl⟩
    · exact absurd h (by simp)
  obtain ⟨m, hdec, rfl⟩ := hm
  refine ⟨⟨m, rfl, ?_⟩, fun s => rfl, fun name fields => by simp⟩
  intro p hp
  rcases decodeMapEntries_mem kvs [] m hdec p hp with hin | hex
  · simp at hin
  · exact hex

/-- C4 witness: a one-entry map with an atom key decodes to a Map with the
string key. -/
theorem c4_map_decodes_to_map_witness :
    (∃ m, (BamlValue.map [("a", .int 1)]) = .map m ∧
      ∀ p ∈ m, ∃ kt vt, (kt, vt) ∈ [((ETerm.atom "a"), ETerm.int 1)] ∧
        term_to_string kt = .ok p.1 ∧ term_to_baml_value vt = .ok p.2) ∧
    (∀ s, term_to_string (.atom s) = .ok s) ∧
    (∀ name fields, (BamlValue.map [("a", .int 1)]) ≠ .cls name fields) :=
  c4_map_decodes_to_map [(.atom "a", .int 1)] (.map [("a", .int 1)])
    (by
      have h1 : fitsI64 1 := by decide
      simp [term_to_baml_value, decodeMapEntries, term_to_string, bamlMapInsert, h1])

/-- A class declaration item with one field, as the Elixir caller builds it:
a TypeBuilder.Class struct map with a name and a one-element fields list. -/
def classDeclTerm (clsName fieldName : String) (tyTerm : ETerm) : ETerm :=
  .map [(.atom "__struct__", .atom "Elixir.BamlElixir.TypeBuilder.Class"),
        (.atom "name", .binary clsName),
        (.atom "fields", .list [.map [(.atom "name", .binary fieldName), (.atom "type", tyTerm)]])]

/-- A bare class reference in type position, as the Elixir caller builds it:
a TypeBuilder.Class struct map whose fields entry is the default nil atom. -/
def classRefTerm (name : String) : ETerm :=
  .map [(.atom "__struct__", .atom "Elixir.BamlElixir.TypeBuilder.Class"),
        (.atom "name", .binary name),
        (.atom "fields", .atom "nil")]

/-- C2: processing two class declarations with the same name, each
contributing a different field, yields exactly one class entry holding both
fields — the second upsert reuses the existing entry. -/
theorem c2_upsert_class_idempotent (name fa fb : String) (hne : fa ≠ fb) :
    parse_type_builder_spec
      (.list [classDeclTerm name fa (.atom "int"), classDeclTerm name fb (.atom "string")])
      Registry.empty =
    (.ok (), ⟨[⟨name, [⟨fa, some (.primitive .int), none⟩,
      ⟨fb, some (.primitive .string), none⟩]⟩], []⟩) := by
  have hbeq : (fa == fb) = false := beq_eq_false_iff_ne.mpr hne
  have e1 : parse_type_builder_item (classDeclTerm name fa (.atom "int")) Registry.empty =
      (.ok (), ⟨[⟨name, [⟨fa, some (.primitive .int), none⟩]⟩], []⟩) := by
    simp only [classDeclTerm, parse_type_builder_item, scanStructType, tb_term_to_string,
      reduceIte]
    simp [parse_class_item, scanClassEntries, tb_term_to_string, parse_field_items,
      parse_field_item, scanFieldEntries, parse_field_type, Registry.empty,
      Registry.upsertClass, Registry.upsertProperty, Registry.setPropertyType]
  have e2 : parse_type_builder_item (classDeclTerm name fb (.atom "string"))
      ⟨[⟨name, [⟨fa, some (.primitive .int), none⟩]⟩], []⟩ =
      (.ok (), ⟨[⟨name, [⟨fa, some (.primitive .int), none⟩,
        ⟨fb, some (.primitive .string), none⟩]⟩], []⟩) := by
    simp only [classDeclTerm, parse_type_builder_item, scanStructType, tb_term_to_string,
      reduceIte]
    simp [parse_class_item, scanClassEntries, tb_term_to_string, parse_field_items,
      parse_field_item, scanFieldEntries, parse_field_type, Registry.upsertClass,
      Registry.upsertProperty, Registry.setPropertyType, hbeq, hne]
  simp only [parse_type_builder_spec, parse_tb_items, e1, e2]

/-- C2 witness: the Pet scenario of the spec with fields a and b. -/
theorem c2_upsert_class_idempotent_witness :
    parse_type_builder_spec
      (.list [classDeclTerm "Pet" "a" (.atom "int"), classDeclTerm "Pet" "b" (.atom "string")])
      Registry.empty =
    (.ok (), ⟨[⟨"Pet", [⟨"a", some (.primitive .int), none⟩,
      ⟨"b", some (.primitive .string), none⟩]⟩], []⟩) :=
  c2_upsert_class_idempotent "Pet" "a" "b" (by decide)

theorem parse_field_type_atom_eq (s : String) (reg : Registry) :
    parse_field_type (.atom s) reg =
      (if s = "string" then (.ok (.primitive .string), reg)
       else if s = "int" then (.ok (.primitive .int), reg)
       else if s = "float" then (.ok (.primitive .float), reg)
       else if s = "bool" then (.ok (.primitive .bool), reg)
       else (.ok (.classRef s), reg)) := by
  simp [parse_field_type]

theorem parse_spec_singleton (t : ETerm) (reg reg1 : Registry)
    (h : parse_type_builder_item t reg = (.ok (), reg1)) :
    parse_type_builder_spec (.list [t]) reg = (.ok (), reg1) := by
  simp only [parse_type_builder_spec, parse_tb_items, h]

theorem node_self_reference_accepted :
    parse_type_builder_spec (.list [classDeclTerm "Node" "next" (classRefTerm "Node")])
        Registry.empty =
      (.ok (), ⟨[⟨"Node", [⟨"next", some (.classRef "Node"), none⟩]⟩], []⟩) := by
  refine parse_spec_singleton _ _ _ ?_
  simp only [classDeclTerm, classRefTerm, parse_type_builder_item, scanStructType,
    tb_term_to_string, reduceIte]
  simp [parse_class_item, scanClassEntries, tb_term_to_string, parse_field_items,
    parse_field_item, scanFieldEntries, parse_field_type, scanStructType, scanClassRef,
    ETerm.isList, Registry.empty, Registry.upsertClass, Registry.upsertProperty,
    Registry.setPropertyType]

/-- C5: a bare atomic tag in type position yields the matching primitive for
string/int/float/bool and a bare ClassRef for any other name, leaving the
registry untouched; and the self-referential Node declaration is accepted
with field type ClassRef Node and no error. -/
theorem c5_bare_atom_and_self_reference :
    (∀ s reg, parse_field_type (.atom s) reg =
      (if s = "string" then (.ok (.primitive .string), reg)
       else if s = "int" then (.ok (.primitive .int), reg)
       else if s = "float" then (.ok (.primitive .float), reg)
       else if s = "bool" then (.ok (.primitive .bool), reg)
       else (.ok (.classRef s), reg))) ∧
    parse_type_builder_spec (.list [classDeclTerm "Node" "next" (classRefTerm "Node")])
        Registry.empty =
      (.ok (), ⟨[⟨"Node", [⟨"next", some (.classRef "Node"), none⟩]⟩], []⟩) :=
  ⟨parse_field_type_atom_eq, node_self_reference_accepted⟩

/-- C6 (code divergence): in type position the Elixir booleans true and false
are atoms, so they are captured by the atom arm and yield ClassRef "true" and
ClassRef "false" — the boolean-literal arm of parse_field_type is
unreachable, contradicting its own comment.  String and integer literals do
reach their literal arms. -/
theorem c6_boolean_literal_parses_to_classref :
    (∀ reg, parse_field_type (.atom "true") reg = (.ok (.classRef "true"), reg)) ∧
    (∀ reg, parse_field_type (.atom "false") reg = (.ok (.classRef "false"), reg)) ∧
    (∀ s reg, parse_field_type (.binary s) reg = (.ok (.literal (.string s)), reg)) ∧
    (∀ i reg, parse_field_type (.int i) reg =
      (if fitsI64 i then (.ok (.literal (.int i)), reg)
       else (.error "Unsupported field type", reg))) := by
  refine ⟨fun reg => ?_, fun reg => ?_, fun s reg => ?_, fun i reg => ?_⟩ <;>
    simp [parse_field_type]

/-- C7 counterexample: a bare sequence in type position is rejected with the
unsupported-field-type error instead of being read as a list of the first
element type. -/
theorem c7_sequence_counterexample :
    parse_field_type (.list [.atom "int", .atom "string"]) Registry.empty =
      (.error "Unsupported field type", Registry.empty) ∧
    (parse_field_type (.list [.atom "int", .atom "string"]) Registry.empty).1 ≠
      .ok (.list (.primitive .int)) := by
  have h : parse_field_type (.list [.atom "int", .atom "string"]) Registry.empty =
      (.error "Unsupported field type", Registry.empty) := by
    simp [parse_field_type]
  exact ⟨h, by rw [h]; simp⟩

/-- C7 (amended): every bare sequence in type position is rejected with the
unsupported-field-type error, whatever its elements; list types require the
explicit TypeBuilder.List struct form. -/
theorem c7_sequence_rejected (xs : List ETerm) (reg : Registry) :
    parse_field_type (.list xs) reg = (.error "Unsupported field type", reg) := by
  simp [parse_field_type]

/-- C8: an item map dispatches on its __struct__ discriminator: the Class tag
goes to the class path, the Enum tag to the enum path, any other tag fails
with an error naming it, and a missing discriminator fails too — in every
failure case the registry is returned untouched. -/
theorem c8_declaration_dispatch (kvs : List (ETerm × ETerm)) (reg : Registry) :
    (∀ e, scanStructType kvs none = .error e →
      parse_type_builder_item (.map kvs) reg = (.error e, reg)) ∧
    (scanStructType kvs none = .ok (some "Elixir.BamlElixir.TypeBuilder.Class") →
      parse_type_builder_item (.map kvs) reg = parse_class_item kvs reg) ∧
    (scanStructType kvs none = .ok (some "Elixir.BamlElixir.TypeBuilder.Enum") →
      parse_type_builder_item (.map kvs) reg = parse_enum_item kvs reg) ∧
    (∀ tag, scanStructType kvs none = .ok (some tag) →
      tag ≠ "Elixir.BamlElixir.TypeBuilder.Class" →
      tag ≠ "Elixir.BamlElixir.TypeBuilder.Enum" →
      parse_type_builder_item (.map kvs) reg =
        (.error ("Unsupported TypeBuilder struct: " ++ tag), reg)) ∧
    (scanStructType kvs none = .ok none →
      parse_type_builder_item (.map kvs) reg = (.error "Missing __struct__ field", reg)) := by
  refine ⟨fun e h => ?_, fun h => ?_, fun h => ?_, fun tag h h1 h2 => ?_, fun h => ?_⟩
  · simp [parse_type_builder_item, h]
  · simp [parse_type_builder_item, h]
  · simp [parse_type_builder_item, h]
  · simp [parse_type_builder_item, h, h1, h2]
  · simp [parse_type_builder_item, h]

/-- C8 witness: an unrecognised discriminator fails, naming the tag, without
touching the registry. -/
theorem c8_declaration_dispatch_witness :
    scanStructType [((ETerm.atom "__struct__"), ETerm.atom "Elixir.Other")] none =
      .ok (some "Elixir.Other") ∧
    parse_type_builder_item (.map [(.atom "__struct__", .atom "Elixir.Other")])
      Registry.empty =
      (.error ("Unsupported TypeBuilder struct: " ++ "Elixir.Other"), Registry.empty) := by
  have hscan : scanStructType [((ETerm.atom "__struct__"), ETerm.atom "Elixir.Other")] none =
      .ok (some "Elixir.Other") := by
    simp [scanStructType, tb_term_to_string]
  exact ⟨hscan, (c8_declaration_dispatch _ _).2.2.2.1 "Elixir.Other" hscan
    (by decide) (by decide)⟩

theorem parse_spec_singleton_err (t : ETerm) (reg reg1 : Registry) (e : String)
    (h : parse_type_builder_item t reg = (.error e, reg1)) :
    parse_type_builder_spec (.list [t]) reg = (.error e, reg1) := by
  simp only [parse_type_builder_spec, parse_tb_items, h]

/-- C9: a class declaration whose second field is missing its name fails with
the missing-field-name error, while the first field, already applied, stays
in the registry — no rollback. -/
theorem c9_partial_failure_no_rollback :
    parse_type_builder_spec
      (.list [.map [(.atom "__struct__", .atom "Elixir.BamlElixir.TypeBuilder.Class"),
        (.atom "name", .binary "Pet"),
        (.atom "fields", .list [.map [(.atom "name", .binary "a"), (.atom "type", .atom "int")],
          .map [(.atom "type", .atom "string")]])]]) Registry.empty =
    (.error "Missing field name", ⟨[⟨"Pet", [⟨"a", some (.primitive .int), none⟩]⟩], []⟩) := by
  refine parse_spec_singleton_err _ _ _ _ ?_
  simp only [parse_type_builder_item, scanStructType, tb_term_to_string, reduceIte]
  simp [parse_class_item, scanClassEntries, tb_term_to_string, parse_field_items,
    parse_field_item, scanFieldEntries, parse_field_type, Registry.empty,
    Registry.upsertClass, Registry.upsertProperty, Registry.setPropertyType]

/-- A class-tagged shape in type position with an arbitrary fields entry. -/
def classTypeTerm (name : String) (fterm : ETerm) : ETerm :=
  .map [(.atom "__struct__", .atom "Elixir.BamlElixir.TypeBuilder.Class"),
        (.atom "name", .binary name), (.atom "fields", fterm)]

/-- An enum-tagged shape in type position with an arbitrary values entry. -/
def enumTypeTerm (name : String) (vterm : ETerm) : ETerm :=
  .map [(.atom "__struct__", .atom "Elixir.BamlElixir.TypeBuilder.Enum"),
        (.atom "name", .binary name), (.atom "values", vterm)]

/-- C10: for a class-tagged (resp. enum-tagged) shape in type position, a
list-valued fields (resp. values) entry decides its meaning: without it the
registry is untouched and the result is the bare reference; with it the
nested declaration is parsed by parse_class_item (resp. parse_enum_item) on
the same entries, its registry effect is kept, and on success the result is
still the name-only reference. -/
theorem c10_inline_definition_vs_reference (name : String) (reg : Registry) :
    (∀ fterm, fterm.isList = false →
      parse_field_type (classTypeTerm name fterm) reg = (.ok (.classRef name), reg)) ∧
    (∀ fs reg',
      parse_class_item [(.atom "__struct__", .atom "Elixir.BamlElixir.TypeBuilder.Class"),
        (.atom "name", .binary name), (.atom "fields", .list fs)] reg = (.ok (), reg') →
      parse_field_type (classTypeTerm name (.list fs)) reg = (.ok (.classRef name), reg')) ∧
    (∀ vterm, vterm.isList = false →
      parse_field_type (enumTypeTerm name vterm) reg = (.ok (.enumRef name), reg)) ∧
    (∀ vs reg',
      parse_enum_item [(.atom "__struct__", .atom "Elixir.BamlElixir.TypeBuilder.Enum"),
        (.atom "name", .binary name), (.atom "values", .list vs)] reg = (.ok (), reg') →
      parse_field_type (enumTypeTerm name (.list vs)) reg = (.ok (.enumRef name), reg')) := by
  refine ⟨fun fterm h => ?_, fun fs reg' h => ?_, fun vterm h => ?_, fun vs reg' h => ?_⟩
  · simp [classTypeTerm, parse_field_type, scanStructType, scanClassRef, tb_term_to_string, h]
  · simp [classTypeTerm, parse_field_type, scanStructType, scanClassRef, tb_term_to_string,
      ETerm.isList, h]
  · simp [enumTypeTerm, parse_field_type, scanStructType, scanEnumRef, tb_term_to_string, h]
  · simp [enumTypeTerm, parse_field_type, scanStructType, scanEnumRef, tb_term_to_string,
      ETerm.isList, h]

/-- C10 witness: a class-tagged shape with the default nil fields entry is a
bare reference (registry untouched), and one with a fields list defines the
class as a side effect while the field type stays ClassRef. -/
theorem c10_inline_definition_vs_reference_witness :
    parse_field_type (classTypeTerm "Ref" (.atom "nil")) Registry.empty =
      (.ok (.classRef "Ref"), Registry.empty) ∧
    parse_field_type
      (classTypeTerm "Pet" (.list [.map [(.atom "name", .binary "a"), (.atom "type", .atom "int")]]))
      Registry.empty =
      (.ok (.classRef "Pet"), ⟨[⟨"Pet", [⟨"a", some (.primitive .int), none⟩]⟩], []⟩) := by
  constructor
  · exact (c10_inline_definition_vs_reference "Ref" Registry.empty).1 (.atom "nil") (by
      simp [ETerm.isList])
  · refine (c10_inline_definition_vs_reference "Pet" Registry.empty).2.1
      [.map [(.atom "name", .binary "a"), (.atom "type", .atom "int")]] _ ?_
    simp [parse_class_item, scanClassEntries, tb_term_to_string, parse_field_items,
      parse_field_item, scanFieldEntries, parse_field_type, Registry.empty,
      Registry.upsertClass, Registry.upsertProperty, Registry.setPropertyType]
